import Mathlib

/-!
Verification development for the ftm-analyze extract-aggregate-resolve
pipeline.  The Python sources are shallowly embedded: dataclasses become
structures, `set`s become insertion-ordered duplicate-free lists, Python
dicts become association lists or counter functions, floats become
rationals, and calls into external libraries (rigour, juditha,
geonames-tagger, jellyfish, fasttext, ftmq/normality helpers) become
explicit function parameters bundled into environment structures.
-/

namespace FtmAnalyze

/-! ## Mention (src/ftm_analyze/analysis/resolve/mention.py) -/

/-- Embedding of the `Mention` dataclass.  Python string sets are modelled
as insertion-ordered lists; `None`-able fields as `Option`. -/
structure Mention where
  key : String
  tag : String
  values : List String
  entity_id : String
  sources : List String
  ner_tag : String
  resolved_values : Option (List String)
  canonical_value : Option String
  resolved_schema : Option String
  resolved_entity_id : Option String
  is_valid : Bool
  is_rejected : Bool
  rejection_reason : Option String
  rejection_stage : Option String
deriving DecidableEq, Repr

/-- `Mention.reject`: mark the mention rejected (idempotent field update). -/
def Mention.reject (m : Mention) (reason stage : String) : Mention :=
  { m with
    is_rejected := true
    is_valid := false
    rejection_reason := some reason
    rejection_stage := some stage }

/-- The NER tag set from `mention.py` / `aggregator.py`. -/
def nerTags : List String := ["PER", "ORG", "LOC"]

/-- `Mention.from_aggregated`: build a mention from an aggregated group. -/
def Mention.from_aggregated (key tag : String) (values : List String)
    (entity_id : String) (sources : List String) : Mention :=
  { key := key
    tag := tag
    values := values
    entity_id := entity_id
    sources := sources
    ner_tag := if tag ∈ nerTags then tag else "OTHER"
    resolved_values := none
    canonical_value := none
    resolved_schema := none
    resolved_entity_id := none
    is_valid := true
    is_rejected := false
    rejection_reason := none
    rejection_stage := none }

/-- `mention.resolved_values or mention.values`: Python `or` falls through
on `None` and on the empty set. -/
def effectiveValues (m : Mention) : List String :=
  match m.resolved_values with
  | some l => if l.isEmpty then m.values else l
  | none => m.values

/-! ## Resolution pipeline (src/ftm_analyze/analysis/resolve/pipeline.py) -/

/-- Embedding of `ResolutionContext` (entity reference and cache omitted:
no claim mentions them; countries is the additively-mutated set). -/
structure Ctx where
  languages : List String
  countries : List String
deriving DecidableEq, Repr

/-- A pipeline stage: `process(mention, context) -> mention`, with the
in-place context mutation made explicit in the result. -/
def Stage : Type := Mention → Ctx → Mention × Ctx

/-- `ResolutionPipeline.resolve`: apply stages in order, breaking out of
the loop as soon as the mention is rejected. -/
def resolve : List Stage → Mention → Ctx → Mention × Ctx
  | [], m, c => (m, c)
  | s :: rest, m, c =>
    if m.is_rejected then (m, c)
    else
      let mc := s m c
      resolve rest mc.1 mc.2

/-- `ResolutionPipeline.resolve_all`: resolve each mention with the shared
context, yielding only the mentions that are not rejected. -/
def resolveAll (stages : List Stage) : List Mention → Ctx → List Mention × Ctx
  | [], c => ([], c)
  | m :: ms, c =>
    let mc := resolve stages m c
    let rest := resolveAll stages ms mc.2
    (if mc.1.is_rejected then rest.1 else mc.1 :: rest.1, rest.2)

/-! ## Extraction results (src/ftm_analyze/analysis/extract/base.py) -/

/-- Embedding of the `ExtractionResult` dataclass.  Confidence floats are
modelled as rationals; the metadata dict as an association list. -/
structure ExtractionResult where
  value : String
  tag : String
  source : String
  confidence : Option ℚ
  metadata : List (String × String)
deriving DecidableEq, Repr

/-! ## Aggregator (src/ftm_analyze/analysis/aggregate/aggregator.py) -/

def MAX_RESULTS : Nat := 10000

/-- Embedding of the `AggregatedResult` dataclass. -/
structure AggregatedResult where
  key : String
  tag : String
  values : List String
  sources : List String
  max_confidence : Option ℚ
deriving DecidableEq, Repr

/-- `AggregatedResult.add_value`: set-insert the value and source, keep
the maximum observed confidence. -/
def AggregatedResult.add_value (a : AggregatedResult) (value source : String)
    (confidence : Option ℚ) : AggregatedResult :=
  { a with
    values := if value ∈ a.values then a.values else a.values ++ [value]
    sources := if source ∈ a.sources then a.sources else a.sources ++ [source]
    max_confidence :=
      match confidence, a.max_confidence with
      | none, mc => mc
      | some c, none => some c
      | some c, some mc => if c > mc then some c else some mc }

/-- External hooks used by `Aggregator._make_key`:
`prop.type.node_id_safe` (followthemoney) and `normalize_name` (rigour). -/
structure KeyEnv where
  node_id_safe : String → Option String
  normalize_name : String → Option String

/-- `Aggregator._make_key`.  For NER tags `result.prop` is always present
(`TAG_TO_PROP` is keyed exactly by the NER tags), so the value is cleaned
through the FTM type and then name-normalized; for all other tags
`result.prop` is `None` and the raw value is returned. -/
def make_key (env : KeyEnv) (r : ExtractionResult) : Option String :=
  if r.value.isEmpty then none
  else if r.tag ∈ nerTags then
    match env.node_id_safe r.value with
    | none => none
    | some v => if v.isEmpty then none else env.normalize_name v
  else some r.value

/-- Mutable aggregator state: the Python dict
`results : dict[tuple[str, str], AggregatedResult]` becomes an
insertion-ordered association list; `rejection_reasons`
(a `defaultdict(int)`) becomes a counter function. -/
structure AggregatorState where
  results : List ((String × String) × AggregatedResult)
  count : Nat
  accepted_count : Nat
  rejected_count : Nat
  rejection_reasons : String → Nat

/-- Fresh aggregator (scorer handled separately in `iter_results`). -/
def initAggregator : AggregatorState :=
  { results := []
    count := 0
    accepted_count := 0
    rejected_count := 0
    rejection_reasons := fun _ => 0 }

/-- `self.rejection_reasons[reason] += 1` on a `defaultdict(int)`. -/
def bump (f : String → Nat) (k : String) : String → Nat :=
  fun q => if q = k then f q + 1 else f q

/-- `lookup_key in self.results` on the association list. -/
def containsKey (l : List ((String × String) × AggregatedResult))
    (lk : String × String) : Bool :=
  l.any (fun p => p.1 == lk)

/-- In-place dict-entry update (`self.results[lookup_key].add_value ...`);
positions of all entries are preserved. -/
def updateEntry (l : List ((String × String) × AggregatedResult))
    (lk : String × String) (f : AggregatedResult → AggregatedResult) :
    List ((String × String) × AggregatedResult) :=
  l.map (fun p => if p.1 == lk then (p.1, f p.2) else p)

/-- `Aggregator.add`: capacity guard, key computation (`if not key`
rejects both `None` and the empty string), get-or-create of the group,
then `add_value`.  Returns the accepted flag with the new state. -/
def add (env : KeyEnv) (s : AggregatorState) (r : ExtractionResult) :
    Bool × AggregatorState :=
  if s.count ≥ MAX_RESULTS then
    (false, { s with
      rejection_reasons := bump s.rejection_reasons "max_results_exceeded"
      rejected_count := s.rejected_count + 1 })
  else
    match make_key env r with
    | none =>
      (false, { s with
        rejection_reasons := bump s.rejection_reasons "invalid_key"
        rejected_count := s.rejected_count + 1 })
    | some key =>
      if key.isEmpty then
        (false, { s with
          rejection_reasons := bump s.rejection_reasons "invalid_key"
          rejected_count := s.rejected_count + 1 })
      else
        let lk := (key, r.tag)
        let s1 :=
          if containsKey s.results lk then s
          else { s with
            results := s.results ++ [(lk, ⟨key, r.tag, [], [], none⟩)]
            count := s.count + 1 }
        (true, { s1 with
          results := updateEntry s1.results lk
            (fun a => a.add_value r.value r.source r.confidence)
          accepted_count := s1.accepted_count + 1 })

/-- A whole sequence of `add` calls on one aggregator. -/
def foldAdds (env : KeyEnv) (rs : List ExtractionResult) : AggregatorState :=
  rs.foldl (fun s r => (add env s r).2) initAggregator

/-! ## Confidence filtering
(src/ftm_analyze/analysis/aggregate/confidence.py) -/

/-- Embedding of `ConfidenceScorer`.  The fastText model behind
`score` is abstracted into per-value oracles: `labelOf v` is the top
label of the (normalized) value, `confOf v` its entropy-derived
confidence.  `threshold = 0` models a falsy (unset) threshold. -/
structure Scorer where
  threshold : ℚ
  labelOf : String → String
  confOf : String → ℚ

/-- `ConfidenceScorer.is_valid`: `True` on a falsy threshold, otherwise
`False` as soon as any value is labeled "trash" or scored below the
threshold. -/
def is_valid (sc : Scorer) (values : List String) : Bool :=
  if sc.threshold = 0 then true
  else values.all fun v =>
    !(sc.labelOf v == "trash") && !(decide (sc.confOf v < sc.threshold))

/-- The scorer consultation inside `iter_results`: only NER-tagged
groups are checked, and only when a scorer is configured
(`use_confidence=true`). -/
def scorerOk (scorer : Option Scorer) (r : AggregatedResult) : Bool :=
  match scorer with
  | some sc => if r.tag ∈ nerTags then is_valid sc r.values else true
  | none => true

/-- `Aggregator.iter_results`: skip empty groups, consult the scorer for
NER-tagged groups when one is configured, yield everything else. -/
def iter_results (scorer : Option Scorer)
    (results : List AggregatedResult) : List AggregatedResult :=
  results.filter fun r => !r.values.isEmpty && scorerOk scorer r

/-! ## Name acceptance (src/ftm_analyze/analysis/extract/base.py) -/

def NAME_MAX_LENGTH : Nat := 100
def NAME_MIN_LENGTH : Nat := 8

/-- External helpers used by `test_name`: `clean_name` (ftmq.util, may
return `None`) and the rigour prefix strippers. -/
structure NameEnv where
  clean_name : String → Option String
  remove_org_prefixes : String → String
  remove_person_prefixes : String → String

/-- `clean_entity_prefix`: org prefixes first, then person prefixes. -/
def cleanEntityPrefixes (env : NameEnv) (name : String) : String :=
  env.remove_person_prefixes (env.remove_org_prefixes name)

/-- `test_name`: clean, check the maximum length, strip prefixes, check
the minimum length, require at least one alphabetic character.  (The
Python `text is None` test after prefix stripping is dead: the strippers
always return a string.) -/
def test_name (env : NameEnv) (text : String) : Bool :=
  match env.clean_name text with
  | none => false
  | some t =>
    if t.length > NAME_MAX_LENGTH then false
    else
      let t2 := cleanEntityPrefixes env t
      if t2.length < NAME_MIN_LENGTH then false
      else t2.data.any fun a => a.isAlpha

/-- The acceptance condition exactly as claim C4 words it: both length
bounds are checked on the value after trimming AND prefix removal. -/
def test_name_claimed (env : NameEnv) (text : String) : Bool :=
  match env.clean_name text with
  | none => false
  | some t =>
    let t2 := cleanEntityPrefixes env t
    decide (NAME_MIN_LENGTH ≤ t2.length) && decide (t2.length ≤ NAME_MAX_LENGTH)
      && t2.data.any fun a => a.isAlpha

/-- The amended acceptance condition: the maximum bound applies before
prefix removal, the minimum bound after. -/
def test_name_amended (env : NameEnv) (text : String) : Bool :=
  match env.clean_name text with
  | none => false
  | some t =>
    decide (t.length ≤ NAME_MAX_LENGTH)
      && (let t2 := cleanEntityPrefixes env t
          decide (NAME_MIN_LENGTH ≤ t2.length) && t2.data.any fun a => a.isAlpha)

/-- `NER_LABEL_MAP` from extract/base.py, as an association list. -/
def nerLabelMap : List (String × String) :=
  [("PER", "PER"), ("B-PER", "PER"), ("I-PER", "PER"), ("PERSON", "PER"),
   ("ORG", "ORG"), ("B-ORG", "ORG"), ("I-ORG", "ORG"),
   ("LOC", "LOC"), ("B-LOC", "LOC"), ("I-LOC", "LOC"), ("GPE", "LOC"),
   ("person", "PER"), ("organization", "ORG"), ("location", "LOC")]

/-- `normalize_label`: map through `NER_LABEL_MAP`, default OTHER. -/
def normalize_label (label : String) : String :=
  ((nerLabelMap.find? fun p => p.1 == label).map fun p => p.2).getD "OTHER"

/-- `make_ner_result`: drop OTHER labels and values failing `test_name`;
otherwise yield the result, plus COUNTRY results for locations (the
gazetteer `location_country` is an external hook). -/
def make_ner_result (env : NameEnv) (location_country : String → List String)
    (label value source : String) (confidence : Option ℚ) :
    List ExtractionResult :=
  let tag := normalize_label label
  if tag = "OTHER" then []
  else if !test_name env value then []
  else
    ⟨value, tag, source, confidence, []⟩ ::
      (if tag = "LOC" then
        (location_country value).map
          fun c => ⟨c, "COUNTRY", source, none, [("from_location", value)]⟩
      else [])

/-! ## Rigour heuristics (src/ftm_analyze/analysis/resolve/stages/rigour.py)
and juditha stages (src/ftm_analyze/analysis/resolve/stages/juditha.py) -/

/-- One schema prediction from `juditha.predict.predict_schema`. -/
structure Prediction where
  ner_tag : String
  score : ℚ
deriving DecidableEq, Repr

/-- External hooks for the juditha classifier stage: the NameDB schema
predictor and the two rigour heuristics (`is_rigour_person`,
`is_rigour_org`), which wrap external rigour name taggers. -/
structure JudithaEnv where
  predict_schema : String → List Prediction
  rigourPerson : String → Bool
  rigourOrg : String → Bool

/-- `classify_name_rigour`: PER if the person heuristic fires, else ORG
if the org heuristic fires, else OTHER. -/
def classify_name_rigour (env : JudithaEnv) (name : String) : String :=
  if env.rigourPerson name then "PER"
  else if env.rigourOrg name then "ORG"
  else "OTHER"

/-- The override block applied to a confident prediction inside
`classify_mention_juditha`. -/
def judithaOverride (originalTag name : String) (p : Prediction) : String :=
  if (p.ner_tag = "LOC" ∨ p.ner_tag = "OTHER") ∧ originalTag ≠ "LOC" then
    "OTHER"
  else if originalTag = "ORG" ∧ p.ner_tag = "PER" ∧ name.length > 20 then
    "ORG"
  else p.ner_tag

/-- The prediction loop of `classify_mention_juditha`: return on the
first prediction with score strictly above 0.9, otherwise fall back to
the rigour classification (ORG or OTHER). -/
def classifyLoop (env : JudithaEnv) (name originalTag : String) :
    List Prediction → String
  | [] => if classify_name_rigour env name = "ORG" then "ORG" else "OTHER"
  | p :: rest =>
    if p.score > (9 : ℚ) / 10 then judithaOverride originalTag name p
    else classifyLoop env name originalTag rest

/-- `classify_mention_juditha` (the `lru_cache` is pure memoization). -/
def classify_mention_juditha (env : JudithaEnv) (name originalTag : String) :
    String :=
  classifyLoop env name originalTag (env.predict_schema name)

/-- The classification function exactly as claim C5 words it: honor the
first prediction whose score is AT LEAST 0.9 (with the two overrides),
else fall back to the rigour classification. -/
def classify_mention_claimed (env : JudithaEnv) (name originalTag : String) :
    String :=
  match (env.predict_schema name).find? fun p => decide (p.score ≥ (9 : ℚ) / 10) with
  | some p => judithaOverride originalTag name p
  | none => if classify_name_rigour env name = "ORG" then "ORG" else "OTHER"

/-- The amended classification: as claimed but with a strictly-greater
0.9 threshold, matching `result.score > 0.9` in the source. -/
def classify_mention_amended (env : JudithaEnv) (name originalTag : String) :
    String :=
  match (env.predict_schema name).find? fun p => decide (p.score > (9 : ℚ) / 10) with
  | some p => judithaOverride originalTag name p
  | none => if classify_name_rigour env name = "ORG" then "ORG" else "OTHER"

/-- `JudithaClassifierStage.process`: classify the first of the
effective values, update `ner_tag` on change, reject iff the resulting
tag is OTHER.  The context is unused by this stage. -/
def juditha_classifier_process (env : JudithaEnv) (m : Mention) : Mention :=
  match effectiveValues m with
  | [] => m
  | name :: _ =>
    let classified := classify_mention_juditha env name m.ner_tag
    let m1 := if classified ≠ m.ner_tag then { m with ner_tag := classified } else m
    if m1.ner_tag = "OTHER" then
      m1.reject "Classified as OTHER by juditha" "juditha_classifier"
    else m1

/-! ## Geonames stage (src/ftm_analyze/analysis/resolve/stages/geonames.py) -/

/-- A `geonames_tagger.tagger.Location` result. -/
structure Location where
  name : String
  country_code : Option String
deriving DecidableEq, Repr

/-- External hooks for the geonames stage: the rigour person heuristic,
the gazetteer tagger, its text normalizer, and the Jaro similarity. -/
structure GeoEnv where
  rigourPerson : String → Bool
  tag_locations : String → List Location
  text_norm : String → String
  jaro_similarity : String → String → ℚ

/-- `refine_location`: refuse rigour-person values, otherwise return the
first tagged location whose Jaro similarity to the normalized input
exceeds 0.9.  (The tagger-load `except` branch also returns `None`.) -/
def refine_location (env : GeoEnv) (name : String) : Option Location :=
  if env.rigourPerson name then none
  else (env.tag_locations name).find? fun loc =>
    decide (env.jaro_similarity (env.text_norm name) loc.name > (9 : ℚ) / 10)

/-- `context.countries.add(code)` guarded by `if location.country_code:`
(falsy on `None` and on the empty string). -/
def addCountry (ctx : Ctx) (cc : Option String) : Ctx :=
  match cc with
  | some c =>
    if c.isEmpty then ctx
    else { ctx with
      countries := if c ∈ ctx.countries then ctx.countries else ctx.countries ++ [c] }
  | none => ctx

/-- The value loop of `GeonamesStage.process`: first value with a
refined location wins. -/
def geonamesFind (env : GeoEnv) : List String → Option Location
  | [] => none
  | v :: rest =>
    match refine_location env v with
    | some loc => some loc
    | none => geonamesFind env rest

/-- `GeonamesStage.process`: skip non-LOC mentions, try each value, on a
match set the canonical value and add the country, otherwise optionally
reject unmatched locations. -/
def geonames_process (env : GeoEnv) (reject_unmatched : Bool)
    (m : Mention) (ctx : Ctx) : Mention × Ctx :=
  if m.ner_tag ≠ "LOC" then (m, ctx)
  else
    let values := effectiveValues m
    if values.isEmpty then (m, ctx)
    else
      match geonamesFind env values with
      | some loc =>
        ({ m with canonical_value := some loc.name }, addCountry ctx loc.country_code)
      | none =>
        (if reject_unmatched then m.reject "Location not found in geonames" "geonames"
         else m, ctx)

/-! ## Mention.caption (src/ftm_analyze/analysis/resolve/mention.py) -/

/-- The `pick_name`-based fallback inside `Mention.caption`; the
`ValueError` becomes an `Except.error` carrying the message. -/
def captionFallback (pick_name : List String → Option String) (m : Mention) :
    Except String String :=
  match pick_name (effectiveValues m) with
  | some c => Except.ok c
  | none => Except.error "No caption available - empty values"

/-- `Mention.caption`: the canonical value when truthy (set and
non-empty), else pick a name over `resolved_values or values`, raising
when none is available. -/
def caption (pick_name : List String → Option String) (m : Mention) :
    Except String String :=
  match m.canonical_value with
  | some c => if c.isEmpty then captionFallback pick_name m else Except.ok c
  | none => captionFallback pick_name m

/-! ## Annotator (src/ftm_analyze/annotate.py)

Texts are modelled as `List Char`.  The substitution pattern
`(?<!\[)\b{re.escape(value)}\b(?![^\[\]]*\])` and Python `re.sub` are
embedded directly: a literal match guarded by the negative lookbehind,
the two word boundaries, and the negative lookahead, scanned left to
right without overlap against the original string. -/

/-- Python `\w` on the ASCII fragment relevant here. -/
def isWordChar (c : Char) : Bool := c.isAlphanum || c == '_'

def isBracketChar (c : Char) : Bool := c == '[' || c == ']'

/-- The first `[` or `]` reachable without passing another one: the
character class scan of the lookahead `[^\[\]]*`. -/
def firstBracket (l : List Char) : Option Char :=
  l.find? fun c => isBracketChar c

/-- Does the annotation pattern for `v` match the slice of `t` starting
at `i`?  Conjuncts in source order: the literal value, the `(?<!\[)`
lookbehind, `\b` before, `\b` after, and the `(?![^\[\]]*\])`
lookahead. -/
def matchesAt (t v : List Char) (i : Nat) : Bool :=
  ((t.drop i).take v.length == v)
    && (match i with
        | 0 => true
        | Nat.succ j => !(t.getD j ' ' == '['))
    && ((match i with
         | 0 => false
         | Nat.succ j => isWordChar (t.getD j ' '))
        != (match v with
            | [] => false
            | c :: _ => isWordChar c))
    && (isWordChar (v.getLastD ' ')
        != (match t.get? (i + v.length) with
            | some c => isWordChar c
            | none => false))
    && !(firstBracket (t.drop (i + v.length)) == some ']')

/-- Left-to-right, non-overlapping `re.sub` scan over the original
string `t`; `fuel` bounds the recursion and is always called with at
least `t.length - i`. -/
def subGo (t v repl : List Char) : Nat → Nat → List Char
  | 0, _ => []
  | Nat.succ fuel, i =>
    if i < t.length then
      if matchesAt t v i then repl ++ subGo t v repl fuel (i + v.length)
      else t.getD i ' ' :: subGo t v repl fuel (i + 1)
    else []

/-- `re.sub(pattern(v), repl, t)` for a non-empty literal `v`. -/
def reSub (v repl t : List Char) : List Char :=
  if v.isEmpty then t else subGo t v repl t.length 0

/-- An entry of `Annotator.annotations`: the extracted value and the
already-computed query string of `Annotation.get_query` (fingerprints,
props, schemata and symbols are external inputs folded into it). -/
structure Annot where
  value : String
  query : String
deriving DecidableEq, Repr

/-- `Annotation.repl`: `[<value>](<query>)`. -/
def annotRepl (a : Annot) : List Char :=
  '[' :: a.value.data ++ ']' :: '(' :: a.query.data ++ [')']

/-- `Annotation.annotate`: no-op when the query (hence `repl`) is empty,
otherwise regex substitution of the value by its annotated form. -/
def annotApply (a : Annot) (t : List Char) : List Char :=
  if a.query.isEmpty then t else reSub a.value.data (annotRepl a) t

/-- `Annotator.annotate_text`: fold all annotations over the text. -/
def annotateText (annots : List Annot) (t : List Char) : List Char :=
  annots.foldl (fun acc a => annotApply a acc) t

/-! ### Removing annotations (the round-trip of claim C7) -/

/-- Parse `X](Q)` after an opening `[`, where `X` and `Q` are free of
brackets and parentheses; returns the restored value and the rest. -/
def parseConstruct (l : List Char) : Option (List Char × List Char) :=
  let x := l.takeWhile fun c => !(c == '[' || c == ']' || c == '(' || c == ')')
  match l.drop x.length with
  | ']' :: '(' :: r2 =>
    let q := r2.takeWhile fun c => !(c == '[' || c == ']' || c == '(' || c == ')')
    (match r2.drop q.length with
     | ')' :: r3 => some (x, r3)
     | _ => none)
  | _ => none

/-- One left-to-right pass replacing every well-formed `[X](Q)` by `X`;
`fuel ≥ length` suffices since every step consumes at least one
character. -/
def unannGo : Nat → List Char → List Char
  | 0, l => l
  | Nat.succ _, [] => []
  | Nat.succ fuel, c :: rest =>
    if c == '[' then
      match parseConstruct rest with
      | some xr => xr.1 ++ unannGo fuel xr.2
      | none => c :: unannGo fuel rest
    else c :: unannGo fuel rest

/-- Remove every `[X](Q)` substitution from an annotated text. -/
def unannotate (t : List Char) : List Char :=
  unannGo t.length t

/-! ## clean_text (src/ftm_analyze/annotate.py) -/

/-- `SKIP_CHARS = "()[]"`. -/
def isSkipChar (c : Char) : Bool :=
  c == '(' || c == ')' || c == '[' || c == ']'

/-- The whitespace-collapsing scan of normality's `collapse_spaces`:
`started` records that a character was already emitted, `sawWS` that
whitespace was seen since; runs of whitespace become one separating
space, leading and trailing whitespace disappear. -/
def collapseGo (started sawWS : Bool) : List Char → List Char
  | [] => []
  | c :: rest =>
    if c.isWhitespace then collapseGo started true rest
    else
      (if started && sawWS then [' ', c] else [c]) ++ collapseGo true false rest

/-- `normality.collapse_spaces` on the character list. -/
def collapse_spaces (l : List Char) : List Char :=
  collapseGo false false l

/-- The per-character effect of the four `text.replace(c, " ")` calls. -/
def skipToSpace (c : Char) : Char :=
  if isSkipChar c then ' ' else c

/-- `clean_text`: each of `( ) [ ]` is replaced by a space
(`text.replace(c, " ")` for each), then whitespace is collapsed
(`collapse_spaces(text) or ""`). -/
def clean_text (s : String) : String :=
  String.mk (collapse_spaces (s.data.map skipToSpace))

/-- Cleaning exactly as claim C8 words it: the characters `()[]` are
REMOVED (not replaced by spaces), then whitespace is collapsed. -/
def clean_text_claimed (s : String) : String :=
  String.mk (collapse_spaces (s.data.filter fun c => !isSkipChar c))

/-- No space at the very front, no two adjacent spaces, no space at the
very end. -/
def spacesOk : List Char → Bool
  | [] => true
  | [c] => !(c == ' ')
  | a :: b :: rest => (!(a == ' ') || !(b == ' ')) && spacesOk (b :: rest)

/-! # Theorems -/

/-! ## C1: rejection short-circuits the pipeline -/

/-- A rejected mention is returned untouched: the stage loop breaks
before applying any stage. -/
theorem resolve_of_rejected (stages : List Stage) (m : Mention) (c : Ctx)
    (h : m.is_rejected = true) : resolve stages m c = (m, c) := by
  cases stages with
  | nil => rfl
  | cons s rest => simp [resolve, h]

/-- Once the mention comes out of a prefix of the pipeline rejected, the
remaining stages change nothing. -/
theorem resolve_append_of_rejected (pre : List Stage) :
    ∀ (post : List Stage) (m : Mention) (c : Ctx),
      (resolve pre m c).1.is_rejected = true →
      resolve (pre ++ post) m c = resolve pre m c := by
  induction pre with
  | nil =>
    intro post m c h
    simp only [resolve] at h
    simpa [resolve] using resolve_of_rejected post m c h
  | cons s rest ih =>
    intro post m c h
    by_cases hr : m.is_rejected = true
    · simp [resolve, hr]
    · have hr' : m.is_rejected = false := by
        cases hm : m.is_rejected
        · rfl
        · exact absurd hm hr
      simp only [List.cons_append, resolve, hr', Bool.false_eq_true, if_false] at h ⊢
      exact ih post _ _ h

/-- `resolve_all` only yields mentions that are not rejected. -/
theorem resolveAll_not_rejected (stages : List Stage) (ms : List Mention) :
    ∀ (c : Ctx) (m : Mention),
      m ∈ (resolveAll stages ms c).1 → m.is_rejected = false := by
  induction ms with
  | nil =>
    intro c m h
    simp [resolveAll] at h
  | cons m0 rest ih =>
    intro c m h
    by_cases hr : (resolve stages m0 c).1.is_rejected = true
    · simp only [resolveAll, hr, if_true] at h
      exact ih _ m h
    · have hr' : (resolve stages m0 c).1.is_rejected = false := by
        cases hm : (resolve stages m0 c).1.is_rejected
        · rfl
        · exact absurd hm hr
      simp only [resolveAll, hr', Bool.false_eq_true, if_false, List.mem_cons] at h
      cases h with
      | inl he => rw [he]; exact hr'
      | inr hm => exact ih _ m hm

/-- C1: once `mention.is_rejected` becomes true after some prefix of the
pipeline's stages, `ResolutionPipeline.resolve` applies no further stage
(the full pipeline's result — mention and context — equals the prefix's
result, and a rejected mention is returned untouched by any pipeline),
and `resolve_all` never yields a rejected mention. -/
theorem c1_rejection_short_circuits :
    (∀ (stages : List Stage) (m : Mention) (c : Ctx),
        m.is_rejected = true → resolve stages m c = (m, c))
    ∧ (∀ (pre post : List Stage) (m : Mention) (c : Ctx),
        (resolve pre m c).1.is_rejected = true →
        resolve (pre ++ post) m c = resolve pre m c)
    ∧ (∀ (stages : List Stage) (ms : List Mention) (c : Ctx) (m : Mention),
        m ∈ (resolveAll stages ms c).1 → m.is_rejected = false) :=
  ⟨resolve_of_rejected,
   fun pre post m c h => resolve_append_of_rejected pre post m c h,
   fun stages ms c m h => resolveAll_not_rejected stages ms c m h⟩

/-- A stage that always rejects. -/
def rejStage : Stage := fun m c => (m.reject "bad name" "demo", c)

/-- A stage that visibly mutates the mention. -/
def mutStage : Stage := fun m c => ({ m with key := "changed" }, c)

def mentionDemo : Mention :=
  Mention.from_aggregated "angela merkel" "PER" ["Angela Merkel"] "e1" ["spacy"]

def mentionRejected : Mention := mentionDemo.reject "bad name" "demo"

def ctxDemo : Ctx := { languages := [], countries := [] }

/-- Witness for C1 at concrete stages and mentions. -/
theorem c1_rejection_short_circuits_witness :
    resolve [mutStage] mentionRejected ctxDemo = (mentionRejected, ctxDemo)
    ∧ resolve ([rejStage] ++ [mutStage]) mentionDemo ctxDemo
        = resolve [rejStage] mentionDemo ctxDemo
    ∧ mentionDemo.is_rejected = false :=
  ⟨c1_rejection_short_circuits.1 [mutStage] mentionRejected ctxDemo rfl,
   c1_rejection_short_circuits.2.1 [rejStage] [mutStage] mentionDemo ctxDemo
     (by decide),
   c1_rejection_short_circuits.2.2 [] [mentionDemo] ctxDemo mentionDemo
     (by decide)⟩

/-! ## C2 / C10: the aggregator capacity bound -/

/-- The two intertwined aggregator invariants: `_count` mirrors the
number of stored groups, and the group count never exceeds
`MAX_RESULTS`. -/
def goodState (s : AggregatorState) : Prop :=
  s.count = s.results.length ∧ s.results.length ≤ MAX_RESULTS

theorem length_updateEntry (l : List ((String × String) × AggregatedResult))
    (lk : String × String) (f : AggregatedResult → AggregatedResult) :
    (updateEntry l lk f).length = l.length :=
  List.length_map l _

theorem add_preserves_good (env : KeyEnv) (s : AggregatorState)
    (r : ExtractionResult) (h : goodState s) : goodState (add env s r).2 := by
  obtain ⟨h1, h2⟩ := h
  unfold goodState
  by_cases hc : s.count ≥ MAX_RESULTS
  · simp [add, hc]
    omega
  · cases hk : make_key env r with
    | none =>
      simp [add, hc, hk]
      omega
    | some key =>
      by_cases hke : key.isEmpty
      · simp [add, hc, hk, hke]
        omega
      · by_cases hck : containsKey s.results (key, r.tag)
        · simp [add, hc, hk, hke, hck, length_updateEntry]
          omega
        · simp [add, hc, hk, hke, hck, length_updateEntry]
          omega

theorem foldAdds_good (env : KeyEnv) (rs : List ExtractionResult) :
    goodState (foldAdds env rs) := by
  have base : goodState initAggregator := by
    constructor
    · rfl
    · exact Nat.zero_le _
  have step : ∀ (l : List ExtractionResult) (s : AggregatorState),
      goodState s → goodState (l.foldl (fun s r => (add env s r).2) s) := by
    intro l
    induction l with
    | nil => intro s hs; exact hs
    | cons r rest ih =>
      intro s hs
      exact ih _ (add_preserves_good env s r hs)
  exact step rs initAggregator base

/-- C2: over any sequence of `Aggregator.add` calls the number of
distinct (key, tag) groups (`len(aggregator)`) never exceeds
`MAX_RESULTS = 10000`; an `add` arriving when the bound is reached
returns `False`, bumps the "max_results_exceeded" rejection counter, and
leaves every previously stored group intact. -/
theorem c2_capacity_bound :
    (∀ (env : KeyEnv) (rs : List ExtractionResult),
        (foldAdds env rs).results.length ≤ MAX_RESULTS)
    ∧ (∀ (env : KeyEnv) (s : AggregatorState) (r : ExtractionResult),
        s.count = s.results.length → MAX_RESULTS ≤ s.results.length →
        (add env s r).1 = false
        ∧ (add env s r).2.results = s.results
        ∧ (add env s r).2.rejection_reasons "max_results_exceeded"
            = s.rejection_reasons "max_results_exceeded" + 1) := by
  constructor
  · intro env rs
    exact (foldAdds_good env rs).2
  · intro env s r h1 h2
    have hc : s.count ≥ MAX_RESULTS := by rw [h1]; exact h2
    refine ⟨?_, ?_, ?_⟩ <;> simp [add, hc, bump]

def keyEnvId : KeyEnv :=
  { node_id_safe := fun s => some s, normalize_name := fun s => some s }

def resultDemo : ExtractionResult :=
  { value := "Angela Merkel", tag := "PER", source := "spacy",
    confidence := none, metadata := [] }

def aggEntryDemo : (String × String) × AggregatedResult :=
  (("Angela Merkel", "PER"),
   { key := "Angela Merkel", tag := "PER", values := ["Angela Merkel"],
     sources := ["spacy"], max_confidence := none })

/-- An aggregator that has reached the capacity bound. -/
def aggFull : AggregatorState :=
  { results := List.replicate MAX_RESULTS aggEntryDemo
    count := MAX_RESULTS
    accepted_count := MAX_RESULTS
    rejected_count := 0
    rejection_reasons := fun _ => 0 }

/-- Witness for C2 at a concrete environment, sequence and full state. -/
theorem c2_capacity_bound_witness :
    (foldAdds keyEnvId [resultDemo]).results.length ≤ MAX_RESULTS
    ∧ ((add keyEnvId aggFull resultDemo).1 = false
       ∧ (add keyEnvId aggFull resultDemo).2.results = aggFull.results
       ∧ (add keyEnvId aggFull resultDemo).2.rejection_reasons
           "max_results_exceeded"
           = aggFull.rejection_reasons "max_results_exceeded" + 1) :=
  ⟨c2_capacity_bound.1 keyEnvId [resultDemo],
   c2_capacity_bound.2 keyEnvId aggFull resultDemo
     (by simp [aggFull]) (by simp [aggFull])⟩

/-- C10: once the group count has reached `MAX_RESULTS`, every further
`add` — also for a (key, tag) group that already exists — returns
`False` and changes nothing but the rejection counters: groups, group
count and accepted count stay identical, the rejected count and the
"max_results_exceeded" reason are incremented, and no other rejection
reason moves. -/
theorem c10_full_aggregator_rejects_everything (env : KeyEnv)
    (s : AggregatorState) (r : ExtractionResult)
    (h1 : s.count = s.results.length) (h2 : MAX_RESULTS ≤ s.results.length) :
    (add env s r).1 = false
    ∧ (add env s r).2.results = s.results
    ∧ (add env s r).2.count = s.count
    ∧ (add env s r).2.accepted_count = s.accepted_count
    ∧ (add env s r).2.rejected_count = s.rejected_count + 1
    ∧ (add env s r).2.rejection_reasons "max_results_exceeded"
        = s.rejection_reasons "max_results_exceeded" + 1
    ∧ ∀ k, k ≠ "max_results_exceeded" →
        (add env s r).2.rejection_reasons k = s.rejection_reasons k := by
  have hc : s.count ≥ MAX_RESULTS := by rw [h1]; exact h2
  refine ⟨?_, ?_, ?_, ?_, ?_, ?_, ?_⟩
  · simp [add, hc]
  · simp [add, hc]
  · simp [add, hc]
  · simp [add, hc]
  · simp [add, hc]
  · simp [add, hc, bump]
  · intro k hk
    simp [add, hc, bump, hk]

/-- Witness for C10: the full aggregator refuses a result whose group is
already stored. -/
theorem c10_full_aggregator_rejects_everything_witness :
    (add keyEnvId aggFull resultDemo).1 = false
    ∧ (add keyEnvId aggFull resultDemo).2.results = aggFull.results
    ∧ (add keyEnvId aggFull resultDemo).2.count = aggFull.count
    ∧ (add keyEnvId aggFull resultDemo).2.accepted_count
        = aggFull.accepted_count
    ∧ (add keyEnvId aggFull resultDemo).2.rejected_count
        = aggFull.rejected_count + 1
    ∧ (add keyEnvId aggFull resultDemo).2.rejection_reasons
        "max_results_exceeded"
        = aggFull.rejection_reasons "max_results_exceeded" + 1
    ∧ ∀ k, k ≠ "max_results_exceeded" →
        (add keyEnvId aggFull resultDemo).2.rejection_reasons k
          = aggFull.rejection_reasons k :=
  c10_full_aggregator_rejects_everything keyEnvId aggFull resultDemo
    (by simp [aggFull]) (by simp [aggFull])

/-! ## C3: confidence filtering in iter_results -/

/-- `add_value` never leaves a group with an empty value set. -/
theorem add_value_values_ne_nil (a : AggregatedResult) (v s : String)
    (c : Option ℚ) : (a.add_value v s c).values ≠ [] := by
  have hval : (a.add_value v s c).values =
      if v ∈ a.values then a.values else a.values ++ [v] := rfl
  rw [hval]
  by_cases hm : v ∈ a.values
  · rw [if_pos hm]
    exact List.ne_nil_of_mem hm
  · rw [if_neg hm]
    simp

/-- Groups surviving `updateEntry` with `add_value` keep non-empty value
sets, as long as every entry under a different key already had one. -/
theorem updateEntry_values_ne_nil
    (l : List ((String × String) × AggregatedResult)) (lk : String × String)
    (r : ExtractionResult)
    (hl : ∀ p ∈ l, p.1 ≠ lk → p.2.values ≠ []) :
    ∀ p ∈ updateEntry l lk
      (fun a => a.add_value r.value r.source r.confidence),
      p.2.values ≠ [] := by
  intro p hp
  rw [updateEntry, List.mem_map] at hp
  obtain ⟨q, hq, hpq⟩ := hp
  by_cases hqk : q.1 == lk
  · rw [if_pos hqk] at hpq
    rw [← hpq]
    exact add_value_values_ne_nil q.2 r.value r.source r.confidence
  · rw [if_neg hqk] at hpq
    rw [← hpq]
    exact hl q hq (by simpa using hqk)

/-- A single `add` call preserves non-emptiness of all stored value
sets. -/
theorem add_values_ne_nil (env : KeyEnv) (s : AggregatorState)
    (r : ExtractionResult) (hs : ∀ p ∈ s.results, p.2.values ≠ []) :
    ∀ p ∈ (add env s r).2.results, p.2.values ≠ [] := by
  intro p hp
  by_cases hc : s.count ≥ MAX_RESULTS
  · simp [add, hc] at hp
    exact hs p hp
  cases hk : make_key env r with
  | none =>
    simp [add, hc, hk] at hp
    exact hs p hp
  | some key =>
    by_cases hke : key.isEmpty
    · simp [add, hc, hk, hke] at hp
      exact hs p hp
    · by_cases hck : containsKey s.results (key, r.tag)
      · have hp' : p ∈ updateEntry s.results (key, r.tag)
            (fun a => a.add_value r.value r.source r.confidence) := by
          simpa [add, hc, hk, hke, hck] using hp
        exact updateEntry_values_ne_nil s.results (key, r.tag) r
          (fun q hq _ => hs q hq) p hp'
      · have hp' : p ∈ updateEntry
            (s.results ++ [((key, r.tag), ⟨key, r.tag, [], [], none⟩)])
            (key, r.tag)
            (fun a => a.add_value r.value r.source r.confidence) := by
          simpa [add, hc, hk, hke, hck] using hp
        refine updateEntry_values_ne_nil _ (key, r.tag) r ?_ p hp'
        intro q hq hne
        rcases List.mem_append.mp hq with hq | hq
        · exact hs q hq
        · exfalso
          apply hne
          simp at hq
          rw [hq]

/-- Every group ever stored by `add` has a non-empty value set:
`add_value` is called right after a group is created. -/
theorem foldAdds_values_nonempty (env : KeyEnv) (rs : List ExtractionResult) :
    ∀ p ∈ (foldAdds env rs).results, p.2.values ≠ [] := by
  have step : ∀ (l : List ExtractionResult) (s : AggregatorState),
      (∀ p ∈ s.results, p.2.values ≠ []) →
      ∀ p ∈ (l.foldl (fun s r => (add env s r).2) s).results, p.2.values ≠ [] := by
    intro l
    induction l with
    | nil => intro s hs; exact hs
    | cons r rest ih =>
      intro s hs
      exact ih _ (add_values_ne_nil env s r hs)
  intro p hp
  refine step rs initAggregator ?_ p hp
  intro q hq
  simp [initAggregator] at hq

/-- C3: with `use_confidence=true` and a configured threshold, an
aggregated group with a NER tag is omitted by `iter_results` exactly
when the scorer labels some value "trash" or scores some value below
the threshold; a group with a non-NER tag is always yielded, for every
scorer (the scorer is never consulted for it). -/
theorem c3_confidence_filtering (sc : Scorer) (rs : List AggregatedResult)
    (r : AggregatedResult) (hth : 0 < sc.threshold) (hr : r ∈ rs)
    (hv : r.values ≠ []) :
    (r.tag ∈ nerTags →
      (r ∉ iter_results (some sc) rs ↔
        ∃ v ∈ r.values, sc.labelOf v = "trash" ∨ sc.confOf v < sc.threshold))
    ∧ (r.tag ∉ nerTags → r ∈ iter_results (some sc) rs) := by
  have hth' : sc.threshold ≠ 0 := ne_of_gt hth
  have hne : r.values.isEmpty = false := by
    cases hvv : r.values with
    | nil => exact absurd hvv hv
    | cons a l => rfl
  constructor
  · intro htag
    have hmem : r ∈ iter_results (some sc) rs ↔
        r.values.all (fun v =>
          !(sc.labelOf v == "trash")
            && !(decide (sc.confOf v < sc.threshold))) = true := by
      unfold iter_results
      rw [List.mem_filter]
      constructor
      · intro h
        have h2 := h.2
        rw [Bool.and_eq_true] at h2
        have h3 := h2.2
        simp only [scorerOk, is_valid] at h3
        rw [if_pos htag, if_neg hth'] at h3
        exact h3
      · intro hall
        refine ⟨hr, ?_⟩
        rw [Bool.and_eq_true]
        refine ⟨by rw [hne]; rfl, ?_⟩
        simp only [scorerOk, is_valid]
        rw [if_pos htag, if_neg hth']
        exact hall
    rw [hmem, List.all_eq_true]
    push_neg
    constructor
    · rintro ⟨v, hvm, hvp⟩
      refine ⟨v, hvm, ?_⟩
      by_cases hlab : sc.labelOf v = "trash"
      · exact Or.inl hlab
      by_cases hconf : sc.confOf v < sc.threshold
      · exact Or.inr hconf
      exfalso
      exact hvp (by simp [hlab, hconf])
    · rintro ⟨v, hvm, hvp⟩
      refine ⟨v, hvm, ?_⟩
      intro hgood
      rcases hvp with h1 | h1 <;> simp [h1] at hgood
  · intro htag
    unfold iter_results
    rw [List.mem_filter]
    refine ⟨hr, ?_⟩
    rw [Bool.and_eq_true]
    refine ⟨by rw [hne]; rfl, ?_⟩
    simp only [scorerOk]
    rw [if_neg htag]

def scorerDemo : Scorer :=
  { threshold := 1 / 2, labelOf := fun _ => "trash", confOf := fun _ => 1 }

def aggNerDemo : AggregatedResult :=
  { key := "angela merkel", tag := "PER", values := ["Angela Merkel"],
    sources := ["spacy"], max_confidence := none }

def aggPatternDemo : AggregatedResult :=
  { key := "a@b.com", tag := "EMAIL", values := ["a@b.com"],
    sources := ["pattern"], max_confidence := none }

/-- Witness for C3: a trash-labeled NER group is omitted, an EMAIL group
is yielded. -/
theorem c3_confidence_filtering_witness :
    (aggNerDemo ∉ iter_results (some scorerDemo) [aggNerDemo, aggPatternDemo] ↔
      ∃ v ∈ aggNerDemo.values,
        scorerDemo.labelOf v = "trash" ∨ scorerDemo.confOf v < scorerDemo.threshold)
    ∧ aggPatternDemo ∈ iter_results (some scorerDemo) [aggNerDemo, aggPatternDemo] :=
  ⟨(c3_confidence_filtering scorerDemo [aggNerDemo, aggPatternDemo] aggNerDemo
      (by norm_num [scorerDemo]) (by simp) (by simp [aggNerDemo])).1
      (by simp [aggNerDemo, nerTags]),
   (c3_confidence_filtering scorerDemo [aggNerDemo, aggPatternDemo] aggPatternDemo
      (by norm_num [scorerDemo]) (by simp) (by simp [aggPatternDemo])).2
      (by simp [aggPatternDemo, nerTags])⟩

/-! ## C9: Mention.caption on mentions without a usable name -/

/-- C9: when `canonical_value` is unset and `pick_name` finds no usable
name among the effective values (`resolved_values or values`), reading
`caption` raises the `ValueError` instead of returning a value. -/
theorem c9_caption_raises_without_values
    (pick_name : List String → Option String) (m : Mention)
    (hcanon : m.canonical_value = none)
    (hpick : pick_name (effectiveValues m) = none) :
    caption pick_name m = Except.error "No caption available - empty values" := by
  rw [caption, hcanon, captionFallback, hpick]

/-- A mention with no values at all (the "in particular" case of C9). -/
def mentionEmpty : Mention :=
  Mention.from_aggregated "k" "PER" [] "e1" []

/-- Witness for C9: the empty mention under rigour's `pick_name`
behaviour on an empty list (modelled by `List.head?`). -/
theorem c9_caption_raises_without_values_witness :
    caption List.head? mentionEmpty
      = Except.error "No caption available - empty values" :=
  c9_caption_raises_without_values List.head? mentionEmpty rfl rfl

/-! ## C4: the test_name acceptance filter -/

/-- Concrete collaborators for the counterexample: cleaning is the
identity and person-prefix stripping removes a leading "Mrs. ", as the
rigour stripper does on honorifics. -/
def nameEnvCex : NameEnv :=
  { clean_name := fun s => some s
    remove_org_prefixes := fun s => s
    remove_person_prefixes := fun s =>
      if s.data.take 5 = "Mrs. ".data then String.mk (s.data.drop 5) else s }

/-- 105 characters before prefix stripping, 100 after. -/
def longNameCex : String :=
  String.mk ('M' :: 'r' :: 's' :: '.' :: ' ' :: List.replicate 100 'a')

/-- Counterexample to C4 as stated: a value whose length is above
`NAME_MAX` only BEFORE prefix removal is rejected by `test_name`, while
the claim (both bounds after trimming and prefix removal) accepts it. -/
theorem c4_name_bounds_counterexample :
    test_name nameEnvCex longNameCex = false
    ∧ test_name_claimed nameEnvCex longNameCex = true := by
  constructor <;> decide

/-- C4 amended: `test_name` accepts iff the trimmed value's length is at
most `NAME_MAX = 100` and, after prefix removal, the length is at least
`NAME_MIN = 8` and at least one character is alphabetic (the maximum
bound is checked before prefix removal, the minimum bound after); any
value failing the filter yields no extraction result. -/
theorem c4_name_bounds_amended :
    (∀ (env : NameEnv) (text : String),
        test_name env text = test_name_amended env text)
    ∧ (∀ (env : NameEnv) (lc : String → List String)
        (label value source : String) (conf : Option ℚ),
        test_name env value = false →
        make_ner_result env lc label value source conf = []) := by
  constructor
  · intro env text
    unfold test_name test_name_amended
    cases h : env.clean_name text with
    | none => rfl
    | some t =>
      by_cases h1 : t.length > NAME_MAX_LENGTH
      · have h1' : ¬t.length ≤ NAME_MAX_LENGTH := by omega
        simp [h1, h1']
      · have h1' : t.length ≤ NAME_MAX_LENGTH := by omega
        by_cases h2 : (cleanEntityPrefixes env t).length < NAME_MIN_LENGTH
        · have h2' : ¬NAME_MIN_LENGTH ≤ (cleanEntityPrefixes env t).length := by
            omega
          simp [h1, h1', h2, h2']
        · have h2' : NAME_MIN_LENGTH ≤ (cleanEntityPrefixes env t).length := by
            omega
          simp [h1, h1', h2, h2']
  · intro env lc label value source conf h
    unfold make_ner_result
    by_cases ht : normalize_label label = "OTHER" <;> simp [ht, h]

/-- Witness for C4 amended, at the counterexample environment: the two
sides agree on a too-short value and the result stream is empty. -/
theorem c4_name_bounds_amended_witness :
    test_name nameEnvCex "short" = test_name_amended nameEnvCex "short"
    ∧ make_ner_result nameEnvCex (fun _ => []) "PER" "short" "spacy" none = [] :=
  ⟨c4_name_bounds_amended.1 nameEnvCex "short",
   c4_name_bounds_amended.2 nameEnvCex (fun _ => []) "PER" "short" "spacy" none
     (by decide)⟩

/-! ## C5: the juditha classifier stage -/

/-- Oracle for the counterexample: one prediction scoring exactly 0.9,
no rigour heuristic fires. -/
def judithaEnvCex : JudithaEnv :=
  { predict_schema := fun _ => [{ ner_tag := "PER", score := (9 : ℚ) / 10 }]
    rigourPerson := fun _ => false
    rigourOrg := fun _ => false }

/-- Counterexample to C5 as stated: a prediction scoring exactly 0.9 is
NOT honored by the code (`result.score > 0.9` is strict), which falls
back to OTHER, while the claim ("score ≥ 0.9") keeps the predicted
PER. -/
theorem c5_juditha_threshold_counterexample :
    classify_mention_juditha judithaEnvCex "Abcdefgh" "PER" = "OTHER"
    ∧ classify_mention_claimed judithaEnvCex "Abcdefgh" "PER" = "PER" := by
  have hpred : judithaEnvCex.predict_schema "Abcdefgh"
      = [{ ner_tag := "PER", score := (9 : ℚ) / 10 }] := rfl
  constructor
  · unfold classify_mention_juditha
    rw [hpred]
    simp only [classifyLoop]
    rw [if_neg (lt_irrefl ((9 : ℚ) / 10))]
    rfl
  · unfold classify_mention_claimed
    rw [hpred, List.find?_cons_of_pos _ (by simp)]
    rfl

/-- C5 amended: the classification honors the FIRST prediction whose
score is strictly greater than 0.9, with exactly the two overrides
(LOC/OTHER predictions yield OTHER unless the mention was already LOC;
an ORG-tagged mention predicted PER with a name longer than 20
characters stays ORG); with no such prediction it falls back to ORG
exactly when the rigour classification is ORG, else OTHER; and the
stage rejects a (not yet rejected, non-empty) mention exactly when the
resulting `ner_tag` is OTHER. -/
theorem c5_juditha_classification_amended :
    (∀ (env : JudithaEnv) (name originalTag : String),
        classify_mention_juditha env name originalTag
          = classify_mention_amended env name originalTag)
    ∧ (∀ (env : JudithaEnv) (m : Mention),
        m.is_rejected = false → (effectiveValues m).isEmpty = false →
        ((juditha_classifier_process env m).is_rejected = true ↔
          (juditha_classifier_process env m).ner_tag = "OTHER")) := by
  constructor
  · intro env name originalTag
    unfold classify_mention_juditha classify_mention_amended
    generalize env.predict_schema name = l
    induction l with
    | nil => rfl
    | cons p rest ih =>
      by_cases hs : p.score > (9 : ℚ) / 10
      · simp only [classifyLoop]
        rw [if_pos hs, List.find?_cons_of_pos _ (by simpa using hs)]
      · simp only [classifyLoop]
        rw [if_neg hs, List.find?_cons_of_neg _ (by simpa using hs)]
        exact ih
  · intro env m hrej hv
    cases hval : effectiveValues m with
    | nil => rw [hval] at hv; simp at hv
    | cons name rest =>
      simp only [juditha_classifier_process, hval]
      generalize classify_mention_juditha env name m.ner_tag = c
      by_cases hcl : c = m.ner_tag
      · subst hcl
        by_cases hO : m.ner_tag = "OTHER"
        · simp [hO, Mention.reject]
        · simp [hO, hrej]
      · by_cases hO : c = "OTHER"
        · subst hO
          simp [hcl, Mention.reject]
        · simp [hcl, hO, hrej]

/-- Witness for C5 amended at the concrete oracle and mention. -/
theorem c5_juditha_classification_amended_witness :
    classify_mention_juditha judithaEnvCex "Abcdefgh" "PER"
        = classify_mention_amended judithaEnvCex "Abcdefgh" "PER"
    ∧ ((juditha_classifier_process judithaEnvCex mentionDemo).is_rejected = true ↔
        (juditha_classifier_process judithaEnvCex mentionDemo).ner_tag
          = "OTHER") :=
  ⟨c5_juditha_classification_amended.1 judithaEnvCex "Abcdefgh" "PER",
   c5_juditha_classification_amended.2 judithaEnvCex mentionDemo rfl (by decide)⟩

/-! ## C6: the geonames stage refuses person names -/

/-- When every candidate value is a rigour person, the value loop finds
no location. -/
theorem geonamesFind_none (env : GeoEnv) (l : List String)
    (h : ∀ v ∈ l, env.rigourPerson v = true) : geonamesFind env l = none := by
  induction l with
  | nil => rfl
  | cons v rest ih =>
    have hv : env.rigourPerson v = true := h v (List.mem_cons_self v rest)
    simp only [geonamesFind, refine_location, hv, if_true]
    exact ih fun w hw => h w (List.mem_cons_of_mem v hw)

/-- C6: a value satisfying the rigour person heuristic is never accepted
as a location: `refine_location` returns no match for it; a mention all
of whose values are rigour persons keeps its `canonical_value` and adds
no country to the context; and non-LOC mentions pass through the
`GeonamesStage` unchanged. -/
theorem c6_geonames_refuses_persons :
    (∀ (env : GeoEnv) (name : String),
        env.rigourPerson name = true → refine_location env name = none)
    ∧ (∀ (env : GeoEnv) (rj : Bool) (m : Mention) (ctx : Ctx),
        m.ner_tag ≠ "LOC" → geonames_process env rj m ctx = (m, ctx))
    ∧ (∀ (env : GeoEnv) (rj : Bool) (m : Mention) (ctx : Ctx),
        (∀ v ∈ effectiveValues m, env.rigourPerson v = true) →
        (geonames_process env rj m ctx).1.canonical_value = m.canonical_value
        ∧ (geonames_process env rj m ctx).2 = ctx) := by
  refine ⟨?_, ?_, ?_⟩
  · intro env name h
    simp only [refine_location, h, if_true]
  · intro env rj m ctx h
    simp only [geonames_process, if_pos h]
  · intro env rj m ctx h
    by_cases ht : m.ner_tag ≠ "LOC"
    · simp [geonames_process, ht]
    · by_cases hv : (effectiveValues m).isEmpty
      · simp [geonames_process, ht, hv]
      · simp only [geonames_process, if_neg ht, hv, Bool.false_eq_true, if_false,
          geonamesFind_none env _ h]
        cases rj <;> simp [Mention.reject]

def geoEnvCex : GeoEnv :=
  { rigourPerson := fun s => s == "Christina"
    tag_locations := fun _ => [{ name := "canada", country_code := some "ca" }]
    text_norm := fun s => s
    jaro_similarity := fun a b => if a == b then 1 else 0 }

def mentionChristina : Mention :=
  Mention.from_aggregated "christina" "LOC" ["Christina"] "e2" ["spacy"]

/-- Witness for C6: "Christina" is refused, a PER mention passes
through, and a LOC mention whose only value is a person keeps its state. -/
theorem c6_geonames_refuses_persons_witness :
    refine_location geoEnvCex "Christina" = none
    ∧ geonames_process geoEnvCex false mentionDemo ctxDemo
        = (mentionDemo, ctxDemo)
    ∧ ((geonames_process geoEnvCex false mentionChristina ctxDemo).1.canonical_value
          = mentionChristina.canonical_value
        ∧ (geonames_process geoEnvCex false mentionChristina ctxDemo).2 = ctxDemo) :=
  ⟨c6_geonames_refuses_persons.1 geoEnvCex "Christina" (by decide),
   c6_geonames_refuses_persons.2.1 geoEnvCex false mentionDemo ctxDemo
     (by decide),
   c6_geonames_refuses_persons.2.2 geoEnvCex false mentionChristina ctxDemo
     (by decide)⟩

/-! ## C8: clean_text replaces brackets by spaces -/

/-- Counterexample to C8 as stated: `clean_text` REPLACES the bracket
characters by spaces rather than removing them, so "a[b" cleans to
"a b", not to "ab". -/
theorem c8_clean_text_counterexample :
    clean_text "a[b" = "a b"
    ∧ clean_text_claimed "a[b" = "ab"
    ∧ clean_text "a[b" ≠ clean_text_claimed "a[b" := by
  refine ⟨by decide, by decide, by decide⟩

/-- Every character the collapse scan emits is either a separating
space or a non-whitespace character of the input. -/
theorem collapseGo_mem (l : List Char) :
    ∀ (s w : Bool) (c : Char), c ∈ collapseGo s w l →
      c = ' ' ∨ (c ∈ l ∧ c.isWhitespace = false) := by
  induction l with
  | nil =>
    intro s w c hc
    simp [collapseGo] at hc
  | cons a rest ih =>
    intro s w c hc
    by_cases ha : a.isWhitespace
    · rw [collapseGo, if_pos ha] at hc
      rcases ih s true c hc with h | ⟨hm, hw⟩
      · exact Or.inl h
      · exact Or.inr ⟨List.mem_cons_of_mem a hm, hw⟩
    · rw [collapseGo, if_neg ha] at hc
      rw [List.mem_append] at hc
      have hane : a.isWhitespace = false := by
        cases hh : a.isWhitespace
        · rfl
        · exact absurd hh ha
      rcases hc with hc | hc
      · by_cases hsw : (s && w) = true
        · rw [if_pos hsw] at hc
          simp only [List.mem_cons, List.not_mem_nil, or_false] at hc
          rcases hc with hc | hc
          · exact Or.inl hc
          · exact Or.inr ⟨by rw [hc]; exact List.mem_cons_self a rest,
              by rw [hc]; exact hane⟩
        · rw [if_neg hsw] at hc
          simp only [List.mem_cons, List.not_mem_nil, or_false] at hc
          exact Or.inr ⟨by rw [hc]; exact List.mem_cons_self a rest,
            by rw [hc]; exact hane⟩
      · rcases ih true false c hc with h | ⟨hm, hw⟩
        · exact Or.inl h
        · exact Or.inr ⟨List.mem_cons_of_mem a hm, hw⟩

/-- The collapse scan preserves the non-whitespace characters
in order. -/
theorem collapseGo_filter (l : List Char) :
    ∀ (s w : Bool),
      (collapseGo s w l).filter (fun c => !c.isWhitespace)
        = l.filter (fun c => !c.isWhitespace) := by
  induction l with
  | nil => intro s w; rfl
  | cons a rest ih =>
    intro s w
    by_cases ha : a.isWhitespace
    · rw [collapseGo, if_pos ha]
      rw [ih s true]
      rw [List.filter_cons]
      simp [ha]
    · rw [collapseGo, if_neg ha]
      rw [List.filter_append]
      have hsep : ∀ b : Bool,
          ((if b then [' ', a] else [a]).filter (fun c => !c.isWhitespace)) = [a] := by
        intro b
        cases b <;> simp [List.filter_cons, ha]
      rw [hsep, ih true false, List.filter_cons]
      simp [ha]

theorem ne_space_of_not_ws (a : Char) (ha : ¬a.isWhitespace = true) :
    (a == ' ') = false := by
  cases hh : a == ' '
  · rfl
  · exfalso
    apply ha
    have he : a = ' ' := by simpa using hh
    rw [he]
    decide

theorem spacesOk_cons (c : Char) (l : List Char) (hc : (c == ' ') = false)
    (hl : spacesOk l = true) : spacesOk (c :: l) = true := by
  cases l with
  | nil => simp [spacesOk, hc]
  | cons b rest => simp [spacesOk, hc, hl]

/-- The collapse scan never emits two adjacent spaces nor a trailing
space. -/
theorem collapseGo_spacesOk (l : List Char) :
    ∀ (s w : Bool), spacesOk (collapseGo s w l) = true := by
  induction l with
  | nil => intro s w; rfl
  | cons a rest ih =>
    intro s w
    by_cases ha : a.isWhitespace
    · rw [collapseGo, if_pos ha]
      exact ih s true
    · have ha' : (a == ' ') = false := ne_space_of_not_ws a ha
      rw [collapseGo, if_neg ha]
      by_cases hsw : (s && w) = true
      · rw [if_pos hsw]
        show spacesOk (' ' :: a :: collapseGo true false rest) = true
        have htail : spacesOk (a :: collapseGo true false rest) = true :=
          spacesOk_cons a _ ha' (ih true false)
        simp [spacesOk, ha', htail]
      · rw [if_neg hsw]
        exact spacesOk_cons a _ ha' (ih true false)

/-- Starting the scan with `started = false` swallows leading
whitespace: the result never begins with a space. -/
theorem collapseGo_headD (l : List Char) :
    ∀ (w : Bool), ((collapseGo false w l).headD 'x' == ' ') = false := by
  induction l with
  | nil => intro w; rfl
  | cons a rest ih =>
    intro w
    by_cases ha : a.isWhitespace
    · rw [collapseGo, if_pos ha]
      exact ih true
    · rw [collapseGo, if_neg ha]
      simp [ne_space_of_not_ws a ha]

theorem skipToSpace_not_skip (c : Char) :
    isSkipChar (skipToSpace c) = false := by
  by_cases h : isSkipChar c = true
  · rw [skipToSpace, if_pos h]
    rfl
  · rw [skipToSpace, if_neg h]
    cases hh : isSkipChar c
    · rfl
    · exact absurd hh h

theorem map_skip_filter (l : List Char) :
    (l.map skipToSpace).filter (fun c => !c.isWhitespace)
      = l.filter (fun c => !c.isWhitespace && !isSkipChar c) := by
  induction l with
  | nil => rfl
  | cons a rest ih =>
    rw [List.map_cons, List.filter_cons, List.filter_cons]
    by_cases h : isSkipChar a = true
    · have h1 : skipToSpace a = ' ' := by rw [skipToSpace, if_pos h]
      rw [h1]
      simp [h, ih]
    · have h1 : skipToSpace a = a := by rw [skipToSpace, if_neg h]
      have h2 : isSkipChar a = false := by
        cases hh : isSkipChar a
        · rfl
        · exact absurd hh h
      rw [h1]
      simp [h2, ih]

/-- C8 amended: `clean_text` REPLACES each of the characters `()[]` by
a space and collapses whitespace: the result contains no bracket
character, its only whitespace is the single space, its non-whitespace
characters are exactly the input's non-whitespace non-bracket
characters in order, and it has no leading, double, or trailing
spaces. -/
theorem c8_clean_text_amended (s : String) :
    (clean_text s).data.all (fun c => !isSkipChar c) = true
    ∧ (clean_text s).data.all (fun c => !c.isWhitespace || c == ' ') = true
    ∧ (clean_text s).data.filter (fun c => !c.isWhitespace)
        = s.data.filter (fun c => !c.isWhitespace && !isSkipChar c)
    ∧ spacesOk (clean_text s).data = true
    ∧ ((clean_text s).data.headD 'x' == ' ') = false := by
  have hdata : (clean_text s).data
      = collapseGo false false (s.data.map skipToSpace) := rfl
  refine ⟨?_, ?_, ?_, ?_, ?_⟩
  · rw [hdata, List.all_eq_true]
    intro c hcm
    rcases collapseGo_mem _ false false c hcm with h | ⟨hm, _⟩
    · rw [h]
      rfl
    · rw [List.mem_map] at hm
      obtain ⟨b, _, hbc⟩ := hm
      rw [← hbc]
      simp [skipToSpace_not_skip]
  · rw [hdata, List.all_eq_true]
    intro c hcm
    rcases collapseGo_mem _ false false c hcm with h | ⟨_, hw⟩
    · rw [h]
      rfl
    · simp [hw]
  · rw [hdata, collapseGo_filter, map_skip_filter]
  · rw [hdata]
    exact collapseGo_spacesOk _ false false
  · rw [hdata]
    exact collapseGo_headD _ false

/-! ## C7: annotation nesting and the round trip -/

def annotCexA : Annot := { value := "ab", query := "f_ab+xy" }
def annotCexB : Annot := { value := "xy", query := "p_q" }

/-- Counterexample to C7 as stated: the word-bounded pattern does stop
matches inside the `[X]` value part, but NOT inside the `(Q)` query
part.  Annotating the cleaned text "ab xy" first with `ab` (whose query
contains the token `xy`) and then with `xy` substitutes inside the
first annotation's query, so the result nests and removing all `[X](Q)`
substitutions does not restore the cleaned text. -/
theorem c7_annotation_roundtrip_counterexample :
    clean_text "ab xy" = "ab xy"
    ∧ annotateText [annotCexA, annotCexB] "ab xy".data
        = "[ab](f_ab+[xy](p_q)) [xy](p_q)".data
    ∧ unannotate (annotateText [annotCexA, annotCexB] "ab xy".data)
        ≠ "ab xy".data := by
  refine ⟨by decide, by decide, by decide⟩

/-- If some index of the list holds `]` and every earlier index holds a
non-bracket character, the lookahead scan finds that `]`. -/
theorem firstBracket_of_bracket (l : List Char) :
    ∀ (n : Nat), l[n]? = some ']' →
      (∀ (k : Nat) (c : Char), k < n → l[k]? = some c →
        isBracketChar c = false) →
      firstBracket l = some ']' := by
  induction l with
  | nil =>
    intro n hn _
    simp at hn
  | cons a rest ih =>
    intro n hn hmid
    cases n with
    | zero =>
      simp at hn
      rw [firstBracket, List.find?_cons_of_pos _ (by rw [hn]; rfl)]
      rw [hn]
    | succ n =>
      have ha : isBracketChar a = false := hmid 0 a (Nat.succ_pos n) (by simp)
      rw [firstBracket, List.find?_cons_of_neg _ (by simp [ha])]
      exact ih n (by simpa using hn)
        (fun k c hk hkc => hmid (k + 1) c (Nat.succ_lt_succ hk) (by simpa using hkc))

/-- C7 amended: the pattern's negative lookahead keeps substitution out
of the square-bracket VALUE part of an already-annotated construct — at
any position strictly inside a `[` ... `]` pair with a clean interior,
no annotation value matches — but it does not protect the parenthesised
query part, so a later value occurring inside an earlier query is still
substituted and the round trip of removing all `[X](Q)` substitutions
can fail to restore the cleaned text. -/
theorem c7_no_substitution_inside_value (t v : List Char) (i l r : Nat)
    (hl : t[l]? = some '[') (hr : t[r]? = some ']')
    (hmid : ∀ (k : Nat) (c : Char), l < k → k < r → t[k]? = some c →
      isBracketChar c = false)
    (hli : l < i) (hir : i + v.length ≤ r) :
    matchesAt t v i = false := by
  have hfb : firstBracket (t.drop (i + v.length)) = some ']' := by
    apply firstBracket_of_bracket (t.drop (i + v.length)) (r - (i + v.length))
    · rw [List.getElem?_drop]
      rw [show i + v.length + (r - (i + v.length)) = r from by omega]
      exact hr
    · intro k c hk hkc
      rw [List.getElem?_drop] at hkc
      exact hmid (i + v.length + k) c (by omega) (by omega) hkc
  unfold matchesAt
  rw [hfb]
  simp

/-- Witness for C7 amended: inside the annotated construct `[abc](q)`
the value `bc` does not match at position 2. -/
theorem c7_no_substitution_inside_value_witness :
    matchesAt "[abc](q)".data "bc".data 2 = false :=
  c7_no_substitution_inside_value "[abc](q)".data "bc".data 2 0 4
    rfl rfl
    (by
      intro k c h1 h2 h3
      interval_cases k
      · rw [show ("[abc](q)".data)[1]? = some 'a' from rfl] at h3
        injection h3 with h4
        rw [← h4]
        rfl
      · rw [show ("[abc](q)".data)[2]? = some 'b' from rfl] at h3
        injection h3 with h4
        rw [← h4]
        rfl
      · rw [show ("[abc](q)".data)[3]? = some 'c' from rfl] at h3
        injection h3 with h4
        rw [← h4]
        rfl)
    (by omega) (by decide)

end FtmAnalyze
